import Mathlib

/-!
Shallow embedding of the password hashing / verification / strength subsystem
of `pydal/validators.py` (`simple_hash`, `get_digest`, `LazyCrypt`, `CRYPT`,
`calc_entropy`'s character classification, `IS_STRONG`).

Python strings are modelled as `List Char`.  The external cryptographic
primitives (`hashlib` digests, `hmac`, `hashlib.pbkdf2_hmac`) are not part of
this repository; they are modelled as an abstract structure `HashPrims` of
deterministic functions, so theorems quantify over the primitives and state
any collision-freeness assumptions explicitly as hypotheses.
-/

set_option maxRecDepth 10000

/-- Python strings are modelled as lists of characters (for `calc_entropy`,
which works on bytes, lists of `Nat` are used instead). -/
abbrev Pstr := List Char

/-- Python `s.split(sep)` for a one-character separator: splits on every
occurrence, keeping empty segments, and returns `[s]` when the separator
does not occur (`"".split(sep) == [""]`). -/
def pysplit (c : Char) : Pstr → List Pstr
  | [] => [[]]
  | x :: xs =>
    if x = c then [] :: pysplit c xs
    else
      match pysplit c xs with
      | r :: rs => (x :: r) :: rs
      | [] => [[x]]

/-- Python `s.split(sep, 1)` when `sep` occurs in `s`: the pair of the part
before the first separator and everything after it. -/
def pysplit1 (c : Char) (l : Pstr) : Pstr × Pstr :=
  (l.takeWhile (fun x => x ≠ c), (l.dropWhile (fun x => x ≠ c)).drop 1)

/-- The six digest algorithms accepted by `get_digest`. -/
inductive DigestName where
  | md5 | sha1 | sha224 | sha256 | sha384 | sha512
deriving DecidableEq

/-- The canonical (lower-case) name of a digest algorithm. -/
def dName : DigestName → Pstr
  | .md5 => "md5".data
  | .sha1 => "sha1".data
  | .sha224 => "sha224".data
  | .sha256 => "sha256".data
  | .sha384 => "sha384".data
  | .sha512 => "sha512".data

/-- `get_digest`: maps a digest name (case-insensitively) to the algorithm,
raising `ValueError("Invalid digest algorithm: ...")` for anything else. -/
def get_digest (s : Pstr) : Except Pstr DigestName :=
  let v := s.map Char.toLower
  if v = "md5".data then .ok .md5
  else if v = "sha1".data then .ok .sha1
  else if v = "sha224".data then .ok .sha224
  else if v = "sha256".data then .ok .sha256
  else if v = "sha384".data then .ok .sha384
  else if v = "sha512".data then .ok .sha512
  else .error ("Invalid digest algorithm: ".data ++ v)

/-- `DIGEST_ALG_BY_SIZE`: the hex-digest-length to algorithm-name table used
for legacy (unsalted, bare hex) stored hashes. -/
def DIGEST_ALG_BY_SIZE (n : Nat) : Option Pstr :=
  if n = 32 then some "md5".data
  else if n = 40 then some "sha1".data
  else if n = 56 then some "sha224".data
  else if n = 64 then some "sha256".data
  else if n = 96 then some "sha384".data
  else if n = 128 then some "sha512".data
  else none

/-- The external cryptographic primitives (`hashlib`, `hmac`,
`hashlib.pbkdf2_hmac`), abstracted as deterministic functions returning the
hex digest string.  `digest d m` models `hashlib.<d>(m).hexdigest()`;
`hmacHex d k m` models `hmac.new(k, m, hashlib.<d>).hexdigest()`;
`pbkdf2Hex d iters klen data salt` models
`hexlify(pbkdf2_hmac(d, data, salt, iters, klen))`. -/
structure HashPrims where
  digest : DigestName → Pstr → Pstr
  hmacHex : DigestName → Pstr → Pstr → Pstr
  pbkdf2Hex : DigestName → Nat → Nat → Pstr → Pstr → Pstr

/-- Python `int()` applied to the pieces of a pbkdf2 descriptor: accepts a
nonempty digit string, fails otherwise. -/
def parseNat (l : Pstr) : Except Pstr Nat :=
  if l ≠ [] ∧ l.all Char.isDigit then
    .ok (l.foldl (fun n c => 10 * n + (c.toNat - 48)) 0)
  else .error ("invalid literal for int".data)

/-- `simple_hash(text, key, salt, digest_alg)` for a string `digest_alg`:
raises for an empty descriptor; a descriptor starting with `"pbkdf2"` is
parsed as `pbkdf2(iterations,keylen,alg)` (slice `[7:-1]` split on `,`) and
delegates to PBKDF2 (ignoring `key`); otherwise a nonempty `key` selects
HMAC with key material `key ++ salt`; otherwise the plain digest of
`text ++ salt`. -/
def simple_hash (prims : HashPrims) (text key salt digest_alg : Pstr) :
    Except Pstr Pstr :=
  if digest_alg = [] then .error "simple_hash with digest_alg=None".data
  else if "pbkdf2".data.isPrefixOf digest_alg then
    match pysplit ',' ((digest_alg.drop 7).dropLast) with
    | [iters, keylen, alg] => do
        let i ← parseNat iters
        let kl ← parseNat keylen
        let d ← get_digest alg
        pure (prims.pbkdf2Hex d i kl text salt)
    | _ => .error "not enough values to unpack".data
  else if key ≠ [] then do
    let d ← get_digest digest_alg
    pure (prims.hmacHex d (key ++ salt) text)
  else do
    let d ← get_digest digest_alg
    pure (prims.digest d (text ++ salt))

/-- The salt configuration of a `CRYPT` validator: Python `True`, `False`,
or a literal string. -/
inductive SaltPolicy where
  | strue
  | sfalse
  | sstr (s : Pstr)
deriving DecidableEq

/-- The configuration fields of the `CRYPT` validator relevant to hashing
(`key` is `Option` because Python distinguishes `None` from `""` under
`==`, although both are falsy). -/
structure CRYPT where
  key : Option Pstr
  digest_alg : Pstr
  min_length : Nat
  error_message : Pstr
  salt : SaltPolicy
  max_length : Nat
deriving DecidableEq

/-- `LazyCrypt`: a crypt configuration together with the plaintext password.
The `crypted` cache slot is omitted: it only memoizes `__str__`, whose value
on a fresh instance is modelled here. -/
structure LazyCrypt where
  crypt : CRYPT
  password : Pstr
deriving DecidableEq

/-- Python truthiness of the configured key (`None` and `""` are falsy). -/
def keyTruthy : Option Pstr → Bool
  | some s => !s.isEmpty
  | none => false

/-- The `(digest_alg, key)` pair derived by `LazyCrypt.__str__`: a truthy
configured key containing `':'` is split once (`split(":", 1)`) into
descriptor and key material; otherwise the configured default descriptor is
used with the whole key (or `""`). -/
def strAlgKey (c : CRYPT) : Pstr × Pstr :=
  if keyTruthy c.key then
    let k := c.key.getD []
    if ':' ∈ k then pysplit1 ':' k
    else (c.digest_alg, k)
  else (c.digest_alg, [])

/-- The key material derived by `LazyCrypt.__eq__`: a truthy configured key
containing `':'` yields `key.split(":")[1]` (the segment between the first
and second colon), otherwise the whole key (or `""`). -/
def eqKey (c : CRYPT) : Pstr :=
  if keyTruthy c.key then
    let k := c.key.getD []
    if ':' ∈ k then (pysplit ':' k).getD 1 []
    else k
  else []

/-- The salt used by `LazyCrypt.__str__`: `True` means the per-instance
generated random salt (passed here as the explicit argument `gen`, since
randomness is external); `False` means empty; a literal string is used as
is (an empty literal is falsy and also yields `""`). -/
def saltResolved (c : CRYPT) (gen : Pstr) : Pstr :=
  match c.salt with
  | .strue => gen
  | .sfalse => []
  | .sstr s => s

/-- `LazyCrypt.__str__` on a fresh (uncached) instance: derives the
descriptor, key and salt from the configuration, hashes, and produces
`digest_alg$salt$hash`.  `gen` is the salt the external random source would
generate when the salt policy is `True`. -/
def LazyCrypt.str (prims : HashPrims) (lz : LazyCrypt) (gen : Pstr) :
    Except Pstr Pstr := do
  let ak := strAlgKey lz.crypt
  let salt := saltResolved lz.crypt gen
  let hashed ← simple_hash prims lz.password ak.2 salt ak.1
  pure (ak.1 ++ '$' :: (salt ++ '$' :: hashed))

/-- `LazyCrypt.__eq__` against a stored string (or `None`): `None` compares
false; a stored value with exactly two `'$'` is split into
`(digest_alg, salt, hash)` and the reconstructed `digest_alg$salt$hash` of
the candidate plaintext is compared for exact equality; otherwise the
algorithm is guessed from the length via `DIGEST_ALG_BY_SIZE` (unknown
lengths compare false) and the bare hex digests are compared. -/
def LazyCrypt.eqStored (prims : HashPrims) (lz : LazyCrypt)
    (stored : Option Pstr) : Except Pstr Bool :=
  let key := eqKey lz.crypt
  match stored with
  | none => .ok false
  | some sp =>
    if sp.count '$' = 2 then
      match pysplit '$' sp with
      | [da, salt, _] => do
          let h ← simple_hash prims lz.password key salt da
          pure ((da ++ '$' :: (salt ++ '$' :: h)) == sp)
      | _ => .ok false
    else
      match DIGEST_ALG_BY_SIZE sp.length with
      | none => .ok false
      | some da => do
          let h ← simple_hash prims lz.password key [] da
          pure (h == sp)

/-- `LazyCrypt.__eq__` between two `LazyCrypt` instances: equal configured
keys and equal plaintexts.  (The source also short-circuits on object
identity `self is other`, which implies both equalities, so it is absorbed;
no hashing is performed, as this definition does not consult `HashPrims`.) -/
def LazyCrypt.eqLazy (a b : LazyCrypt) : Bool :=
  (a.crypt.key == b.crypt.key) && (a.password == b.password)

/-- The `CRYPT.STARS` placeholder sentinel, six asterisks. -/
def CRYPT.STARS : Pstr := "******".data

/-- `CRYPT.validate` on a string input: the sentinel maps to `None`
(modelled `Option.none`); otherwise the value truncated to `max_length`
must be nonempty and at least `min_length` long, else a `ValidationError`
with the configured message is raised; on success the original
(untruncated) value is wrapped in a `LazyCrypt`.  No hashing happens here
(the definition does not consult `HashPrims`). -/
def CRYPT.validate (c : CRYPT) (value : Pstr) :
    Except Pstr (Option LazyCrypt) :=
  if value = CRYPT.STARS then .ok none
  else
    let v := if value = [] then [] else value.take c.max_length
    if v = [] ∨ v.length < c.min_length then .error c.error_message
    else .ok (some ⟨c, value⟩)

/-- A Python rule threshold as received by `IS_STRONG.validate`: `None`
(not an int), `False` (an int for `isinstance`, but excluded from the
"forbid" branch by `is not False`), or an int. -/
inductive RuleVal where
  | pynone
  | pyfalse
  | val (n : Nat)
deriving DecidableEq

/-- The fields of an `IS_STRONG` validator after `__init__` defaulting. -/
structure StrongCfg where
  min : RuleVal
  max : RuleVal
  upper : RuleVal
  lower : RuleVal
  number : RuleVal
  special : RuleVal
  entropy : Option ℚ
  specials : Pstr
  invalid : Pstr
  error_message : Option Pstr
deriving DecidableEq

/-- The default `specials` string of `IS_STRONG`. -/
def defaultSpecials : Pstr := "~!@#$%^&*()_+-=?<>,.:;\x7b\x7d[]|".data

/-- The default `invalid` string of `IS_STRONG` (space and double quote). -/
def defaultInvalid : Pstr := " \"".data

/-- `IS_STRONG.__init__`: when no entropy floor is given, `None` arguments
for min/upper/lower/number/special are replaced by the default requirements
(8/1/1/1/1); `max` is passed through; with an entropy floor all rule
arguments are passed through unchanged. -/
def IS_STRONG.init (min max upper lower number special : RuleVal)
    (entropy : Option ℚ) (specials invalid : Pstr)
    (error_message : Option Pstr) : StrongCfg :=
  if entropy = none then
    { min := if min = .pynone then .val 8 else min
      max := max
      upper := if upper = .pynone then .val 1 else upper
      lower := if lower = .pynone then .val 1 else lower
      number := if number = .pynone then .val 1 else number
      special := if special = .pynone then .val 1 else special
      entropy := entropy, specials := specials, invalid := invalid
      error_message := error_message }
  else
    { min := min, max := max, upper := upper, lower := lower
      number := number, special := special
      entropy := entropy, specials := specials, invalid := invalid
      error_message := error_message }

/-- One failure entry appended by `IS_STRONG.validate` (the translated
message strings are abstracted to constructors carrying the numbers they
interpolate). -/
inductive StrongFailure where
  | tooSimple (got need : ℚ)
  | minLength (n : Nat)
  | maxLength (n : Nat)
  | atLeastSpecial (n : Nat)
  | noSpecial
  | invalidChars
  | atLeastUpper (n : Nat)
  | noUpper
  | atLeastLower (n : Nat)
  | noLower
  | atLeastNumber (n : Nat)
  | noNumber
deriving DecidableEq

/-- The error raised by `IS_STRONG.validate`: either the joined list of rule
failures or, when `error_message` is configured, that fixed message. -/
inductive StrongError where
  | rules (l : List StrongFailure)
  | custom (m : Pstr)
deriving DecidableEq

/-- Number of characters of `value` matching `re.findall("[A-Z]", value)`. -/
def countUpperAZ (value : Pstr) : Nat :=
  (value.filter (fun c => 'A' ≤ c && c ≤ 'Z')).length

/-- Number of characters of `value` matching `re.findall("[a-z]", value)`. -/
def countLowerAZ (value : Pstr) : Nat :=
  (value.filter (fun c => 'a' ≤ c && c ≤ 'z')).length

/-- Number of characters of `value` matching `re.findall("[0-9]", value)`. -/
def countDigit09 (value : Pstr) : Nat :=
  (value.filter (fun c => '0' ≤ c && c ≤ '9')).length

/-- `[ch in value for ch in chars].count(True)`: how many characters of
`chars` occur in `value`. -/
def countOccurring (chars value : Pstr) : Nat :=
  (chars.filter (fun ch => value.contains ch)).length

/-- The failure list accumulated by `IS_STRONG.validate`, in source order:
entropy, min, max, special, invalid, upper, lower, number.  `calcE` is the
(abstracted, float-valued) `calc_entropy`. -/
def IS_STRONG.failures (calcE : Pstr → ℚ) (c : StrongCfg) (value : Pstr) :
    List StrongFailure :=
  (match c.entropy with
   | some need => if calcE value < need then [.tooSimple (calcE value) need] else []
   | none => []) ++
  (match c.min with
   | .val n => if 0 < n then (if value.length ≥ n then [] else [.minLength n]) else []
   | _ => []) ++
  (match c.max with
   | .val n => if 0 < n then (if value.length ≤ n then [] else [.maxLength n]) else []
   | _ => []) ++
  (match c.special with
   | .val n =>
     if 0 < n then
       (if countOccurring c.specials value ≥ n then [] else [.atLeastSpecial n])
     else if countOccurring c.specials value > 0 then [.noSpecial] else []
   | _ => []) ++
  (if c.invalid ≠ [] ∧ countOccurring c.invalid value > 0 then [.invalidChars] else []) ++
  (match c.upper with
   | .val n =>
     if 0 < n then (if countUpperAZ value ≥ n then [] else [.atLeastUpper n])
     else if countUpperAZ value > 0 then [.noUpper] else []
   | _ => []) ++
  (match c.lower with
   | .val n =>
     if 0 < n then (if countLowerAZ value ≥ n then [] else [.atLeastLower n])
     else if countLowerAZ value > 0 then [.noLower] else []
   | _ => []) ++
  (match c.number with
   | .val n =>
     if 0 < n then (if countDigit09 value ≥ n then [] else [.atLeastNumber n])
     else if countDigit09 value > 0 then [.noNumber] else []
   | _ => [])

/-- `IS_STRONG.validate`: a nonempty value made only of `'*'` with more
than four of them bypasses every check; otherwise the failure list is
computed and, when nonempty, raised (as the list, or as the configured
fixed `error_message`). -/
def IS_STRONG.validate (calcE : Pstr → ℚ) (c : StrongCfg) (value : Pstr) :
    Except StrongError Pstr :=
  if value ≠ [] ∧ value.count '*' = value.length ∧ 4 < value.count '*' then
    .ok value
  else
    let failures := IS_STRONG.failures calcE c value
    if failures = [] then .ok value
    else
      match c.error_message with
      | none => .error (.rules failures)
      | some m => .error (.custom m)

/-- UTF-8 encoding of a codepoint below 256, as Python `chr(x).encode()`
produces it: one byte below `0x80`, two bytes (`0xC2`/`0xC3` lead) above. -/
def utf8OfCodepoint (x : Nat) : List Nat :=
  if x < 128 then [x] else [192 + x / 64, 128 + x % 64]

/-- `lowerset`: the byte values of `b"abcdefghijklmnopqrstuvwxyz"`. -/
def lowerset : List Nat := "abcdefghijklmnopqrstuvwxyz".data.map Char.toNat

/-- `upperset`: the byte values of `b"ABCDEFGHIJKLMNOPQRSTUVWXYZ"`. -/
def upperset : List Nat := "ABCDEFGHIJKLMNOPQRSTUVWXYZ".data.map Char.toNat

/-- `numberset`: the byte values of `b"0123456789"`. -/
def numberset : List Nat := "0123456789".data.map Char.toNat

/-- `sym1set`: the byte values of `b"!@#$%^&*() "`. -/
def sym1set : List Nat := "!@#$%^&*() ".data.map Char.toNat

/-- `sym2set`: the byte values of the source's second symbol set
(tilde, backtick, hyphen, underscore, equals, plus, brackets, braces,
backslash, pipe, semicolon, colon, single and double quote, comma, period,
angle brackets, question mark, slash), listed as byte codes. -/
def sym2set : List Nat :=
  [126, 96, 45, 95, 61, 43, 91, 93, 123, 125, 92, 124, 59, 58, 39, 34,
   44, 46, 60, 62, 63, 47]

/-- `otherset` as the Python-3 branch builds it:
`frozenset(b"".join(chr(x).encode() for x in range(256)))` — the set of
bytes occurring in the concatenated UTF-8 encodings of code points 0..255. -/
def otherset : List Nat := (List.range 256).flatMap utf8OfCodepoint

/-- `otherset` as the Python-2 branch builds it:
`frozenset("".join(chr(x) for x in range(256)))` — all 256 byte values. -/
def othersetPy2 : List Nat := List.range 256

/-- The first-match-wins character classification of `calc_entropy`: the
first of the six sets (in source order) containing the byte, or `none`
(the case in which the source's `assert inset is not None` fires). -/
def classifyByte (b : Nat) : Option (List Nat) :=
  [lowerset, upperset, numberset, sym1set, sym2set, otherset].find?
    (fun s => s.contains b)

/-- The same classification with the Python-2 `otherset`. -/
def classifyBytePy2 (b : Nat) : Option (List Nat) :=
  [lowerset, upperset, numberset, sym1set, sym2set, othersetPy2].find?
    (fun s => s.contains b)

/-- A concrete instantiation of the abstract hash primitives, used to
evaluate theorems with hypotheses at explicit inputs.  Each primitive is
injective in the message and never produces a `'$'` when its inputs have
none. -/
def demoPrims : HashPrims where
  digest := fun _ s => '#' :: s
  hmacHex := fun _ k m => '%' :: (k ++ '/' :: m)
  pbkdf2Hex := fun _ _ _ t s => '&' :: (t ++ s)

deriving instance DecidableEq for Except

lemma pysplit_not_mem (c : Char) (l : Pstr) (h : c ∉ l) : pysplit c l = [l] := by
  induction l with
  | nil => rfl
  | cons x xs ih =>
    have hx : ¬ x = c := by
      intro he
      exact h (by simp [he])
    have hxs : c ∉ xs := fun hm => h (List.mem_cons_of_mem _ hm)
    simp only [pysplit, if_neg hx, ih hxs]

lemma pysplit_append (c : Char) (a b : Pstr) (h : c ∉ a) :
    pysplit c (a ++ c :: b) = a :: pysplit c b := by
  induction a with
  | nil => simp [pysplit]
  | cons x xs ih =>
    have hx : ¬ x = c := by
      intro he
      exact h (by simp [he])
    have hxs : c ∉ xs := fun hm => h (List.mem_cons_of_mem _ hm)
    simp only [List.cons_append, pysplit, if_neg hx]
    rw [show xs.append (c :: b) = xs ++ c :: b from rfl, ih hxs]

lemma pysplit1_spec (c : Char) (A B : Pstr) (h : c ∉ A) :
    pysplit1 c (A ++ c :: B) = (A, B) := by
  induction A with
  | nil => simp [pysplit1]
  | cons x xs ih =>
    have hx : x ≠ c := by
      intro he
      exact h (by simp [he])
    have hxs : c ∉ xs := fun hm => h (List.mem_cons_of_mem _ hm)
    have ih' := ih hxs
    simp only [pysplit1, List.cons_append, List.takeWhile_cons, List.dropWhile_cons,
      hx, decide_not] at ih' ⊢
    simp only [Prod.mk.injEq] at ih' ⊢
    constructor
    · simp [ih'.1]
    · exact ih'.2

lemma exists_first_split (c : Char) (l : Pstr) (h : c ∈ l) :
    ∃ A B, l = A ++ c :: B ∧ c ∉ A := by
  induction l with
  | nil => cases h
  | cons x xs ih =>
    by_cases hx : x = c
    · exact ⟨[], xs, by simp [hx], by simp⟩
    · have hxs : c ∈ xs := by
        rcases List.mem_cons.mp h with h1 | h2
        · exact absurd h1.symm hx
        · exact h2
      obtain ⟨A, B, hAB, hA⟩ := ih hxs
      refine ⟨x :: A, B, by simp [hAB], ?_⟩
      intro hm
      rcases List.mem_cons.mp hm with h1 | h2
      · exact hx h1.symm
      · exact hA h2

lemma get_digest_dName (d : DigestName) : get_digest (dName d) = .ok d := by
  cases d <;> rfl

lemma dName_not_pbkdf2 (d : DigestName) :
    "pbkdf2".data.isPrefixOf (dName d) = false := by
  cases d <;> rfl

lemma dollar_not_mem_dName (d : DigestName) : '$' ∉ dName d := by
  cases d <;> decide

lemma beq_append_fixed (da salt h2 hh : Pstr) :
    ((da ++ '$' :: (salt ++ '$' :: h2)) == (da ++ '$' :: (salt ++ '$' :: hh)))
      = (h2 == hh) := by
  by_cases h : h2 = hh
  · subst h
    simp
  · have hne : da ++ '$' :: (salt ++ '$' :: h2) ≠ da ++ '$' :: (salt ++ '$' :: hh) := by
      simpa using h
    rw [beq_eq_false_iff_ne.mpr hne, beq_eq_false_iff_ne.mpr h]

lemma count_two (da salt hh : Pstr) (hda : '$' ∉ da) (hs : '$' ∉ salt)
    (hhh : '$' ∉ hh) : (da ++ '$' :: (salt ++ '$' :: hh)).count '$' = 2 := by
  have h1 : da.count '$' = 0 := List.count_eq_zero.mpr hda
  have h2 : salt.count '$' = 0 := List.count_eq_zero.mpr hs
  have h3 : hh.count '$' = 0 := List.count_eq_zero.mpr hhh
  simp [List.count_append, List.count_cons, h1, h2, h3]

/-- Central verification lemma: comparing a candidate against a stored value
of the well-formed shape `da$salt$hh` (no `'$'` inside the three pieces)
recomputes `simple_hash` of the candidate's plaintext with the key derived
by `__eq__`, the stored salt and the stored descriptor, and succeeds exactly
when the recomputed hex digest equals the stored one (errors of
`simple_hash` propagate). -/
lemma eqStored_build (prims : HashPrims) (lz : LazyCrypt) (da salt hh : Pstr)
    (hda : '$' ∉ da) (hs : '$' ∉ salt) (hhh : '$' ∉ hh) :
    LazyCrypt.eqStored prims lz (some (da ++ '$' :: (salt ++ '$' :: hh))) =
      (simple_hash prims lz.password (eqKey lz.crypt) salt da).map
        (fun h2 => h2 == hh) := by
  have hcount := count_two da salt hh hda hs hhh
  have hsplit : pysplit '$' (da ++ '$' :: (salt ++ '$' :: hh)) = [da, salt, hh] := by
    rw [pysplit_append _ _ _ hda, pysplit_append _ _ _ hs, pysplit_not_mem _ _ hhh]
  simp only [LazyCrypt.eqStored, hcount, if_pos rfl, hsplit]
  cases hsh : simple_hash prims lz.password (eqKey lz.crypt) salt da with
  | error e => simp [hsh, Except.map]
  | ok h2 =>
    simp only [hsh, Except.map, bind, Except.bind, pure, Except.pure]
    rw [beq_append_fixed]
    simp

lemma simple_hash_digest (prims : HashPrims) (P salt : Pstr) (d : DigestName) :
    simple_hash prims P [] salt (dName d) = .ok (prims.digest d (P ++ salt)) := by
  cases d <;> rfl

lemma simple_hash_hmac (prims : HashPrims) (P key salt : Pstr) (d : DigestName)
    (hkey : key ≠ []) :
    simple_hash prims P key salt (dName d) = .ok (prims.hmacHex d (key ++ salt) P) := by
  cases key with
  | nil => exact absurd rfl hkey
  | cons a l => cases d <;> rfl

/-- Claim C1: for every supported digest name D and plaintext P, materializing
a `LazyCrypt` under a CRYPT configuration with algorithm D, no salt and no key
yields the stored string `D$$hexdigest(P)`, a fresh keyless `LazyCrypt`
wrapping P compares true against it, and one wrapping a plaintext P2 whose
digest differs compares false.  The digest is an abstract external primitive,
so the hypotheses record explicitly that hex digests contain no `'$'`
(`hdig`) and that P2 and P do not collide under D (`hcol`). -/
theorem crypt_noSalt_encode_verify (prims : HashPrims) (d : DigestName)
    (P P2 gen : Pstr) (cfg cfgA cfgB : CRYPT)
    (hcfgk : keyTruthy cfg.key = false) (hcfga : cfg.digest_alg = dName d)
    (hcfgs : cfg.salt = SaltPolicy.sfalse)
    (hkA : keyTruthy cfgA.key = false) (hkB : keyTruthy cfgB.key = false)
    (hdig : '$' ∉ prims.digest d P)
    (hcol : prims.digest d P2 ≠ prims.digest d P) :
    LazyCrypt.str prims ⟨cfg, P⟩ gen
        = .ok (dName d ++ '$' :: ([] ++ '$' :: prims.digest d P))
      ∧ LazyCrypt.eqStored prims ⟨cfgA, P⟩
          (some (dName d ++ '$' :: ([] ++ '$' :: prims.digest d P))) = .ok true
      ∧ LazyCrypt.eqStored prims ⟨cfgB, P2⟩
          (some (dName d ++ '$' :: ([] ++ '$' :: prims.digest d P))) = .ok false := by
  have hak : strAlgKey cfg = (dName d, []) := by
    simp [strAlgKey, hcfgk, hcfga]
  have hsalt : saltResolved cfg gen = [] := by
    simp [saltResolved, hcfgs]
  refine ⟨?_, ?_, ?_⟩
  · simp only [LazyCrypt.str, hak, hsalt, simple_hash_digest, List.append_nil,
      bind, Except.bind, pure, Except.pure]
  · rw [eqStored_build prims _ _ _ _ (dollar_not_mem_dName d) (by simp) hdig]
    have hek : eqKey cfgA = [] := by simp [eqKey, hkA]
    simp only [hek, simple_hash_digest, List.append_nil, Except.map]
    simp
  · rw [eqStored_build prims _ _ _ _ (dollar_not_mem_dName d) (by simp) hdig]
    have hek : eqKey cfgB = [] := by simp [eqKey, hkB]
    simp only [hek, simple_hash_digest, List.append_nil, Except.map]
    simp [beq_eq_false_iff_ne.mpr hcol]

/-- Witness for `crypt_noSalt_encode_verify`: concrete primitives, algorithm
sha1, plaintexts "ab" and "cd". -/
theorem crypt_noSalt_encode_verify_witness :
    ('$' ∉ demoPrims.digest DigestName.sha1 "ab".data)
      ∧ (demoPrims.digest DigestName.sha1 "cd".data
          ≠ demoPrims.digest DigestName.sha1 "ab".data)
      ∧ (LazyCrypt.str demoPrims ⟨⟨none, "sha1".data, 0, [], .sfalse, 1024⟩, "ab".data⟩ []
            = .ok (dName DigestName.sha1
                ++ '$' :: ([] ++ '$' :: demoPrims.digest DigestName.sha1 "ab".data))
          ∧ LazyCrypt.eqStored demoPrims ⟨⟨none, "sha1".data, 0, [], .sfalse, 1024⟩, "ab".data⟩
              (some (dName DigestName.sha1
                ++ '$' :: ([] ++ '$' :: demoPrims.digest DigestName.sha1 "ab".data))) = .ok true
          ∧ LazyCrypt.eqStored demoPrims ⟨⟨none, "sha1".data, 0, [], .sfalse, 1024⟩, "cd".data⟩
              (some (dName DigestName.sha1
                ++ '$' :: ([] ++ '$' :: demoPrims.digest DigestName.sha1 "ab".data))) = .ok false) :=
  ⟨by decide, by decide,
    crypt_noSalt_encode_verify demoPrims DigestName.sha1 "ab".data "cd".data []
      ⟨none, "sha1".data, 0, [], .sfalse, 1024⟩
      ⟨none, "sha1".data, 0, [], .sfalse, 1024⟩
      ⟨none, "sha1".data, 0, [], .sfalse, 1024⟩
      rfl rfl rfl rfl rfl (by decide) (by decide)⟩

lemma simple_hash_foo (prims : HashPrims) (t k s : Pstr) :
    simple_hash prims t k s "foo".data
      = .error "Invalid digest algorithm: foo".data := by
  cases k with
  | nil => rfl
  | cons a l => rfl

/-- Claim C2 counterexample: a stored value with exactly two `'$'` but the
unsupported descriptor `foo` makes verification raise `ValueError` from
`get_digest` instead of returning false, refuting "yields false rather than
an error". -/
theorem verify_malformed_descriptor_raises_cex :
    LazyCrypt.eqStored demoPrims ⟨⟨none, "md5".data, 0, [], .strue, 1024⟩, "pw".data⟩
        (some "foo$$abc".data)
      = .error "Invalid digest algorithm: foo".data := by rfl

/-- Claim C2 (amended): verification returns false without raising for a
`None` stored value and for any stored string that does not have exactly two
`'$'` and whose length is not a recognized legacy length; but a stored value
with exactly two `'$'` and an unsupported algorithm descriptor (such as
`"foo$$abc"`) raises an error rather than returning false. -/
theorem verify_malformed_stored (prims : HashPrims) (lz : LazyCrypt) :
    (LazyCrypt.eqStored prims lz none = .ok false)
      ∧ (∀ s : Pstr, s.count '$' ≠ 2 → DIGEST_ALG_BY_SIZE s.length = none →
          LazyCrypt.eqStored prims lz (some s) = .ok false)
      ∧ (LazyCrypt.eqStored prims lz
            (some ("foo".data ++ '$' :: ([] ++ '$' :: "abc".data)))
          = .error "Invalid digest algorithm: foo".data) := by
  refine ⟨rfl, ?_, ?_⟩
  · intro s h2 hlen
    simp only [LazyCrypt.eqStored, if_neg h2, hlen]
  · rw [eqStored_build prims lz _ _ _ (by decide) (by simp) (by decide)]
    rw [simple_hash_foo]
    rfl

/-- Witness for `verify_malformed_stored`: the four-character stored value
"abcd" has no `'$'` and an unrecognized length, and compares false. -/
theorem verify_malformed_stored_witness :
    (("abcd".data : Pstr).count '$' ≠ 2
        ∧ DIGEST_ALG_BY_SIZE ("abcd".data : Pstr).length = none)
      ∧ LazyCrypt.eqStored demoPrims
          ⟨⟨none, "md5".data, 0, [], .strue, 1024⟩, "pw".data⟩ (some "abcd".data)
        = .ok false :=
  ⟨by decide,
    (verify_malformed_stored demoPrims
      ⟨⟨none, "md5".data, 0, [], .strue, 1024⟩, "pw".data⟩).2.1
      "abcd".data (by decide) (by decide)⟩

/-- Claim C4 (code bug): byte 196 — the UTF-8 lead byte of U+0100, so it
does occur in encoded passwords — belongs to none of the six classification
sets as `otherset` is built on Python 3, so `calc_entropy`'s
`assert inset is not None` fires; under the Python-2 construction of
`otherset` every one of the 256 byte values is classified, which is the
claimed (and clearly intended) coverage. -/
theorem calc_entropy_classification_gap :
    classifyByte 196 = none
      ∧ ((List.range 256).all fun b => (classifyBytePy2 b).isSome) = true := by
  exact ⟨by decide, by decide⟩

/-- Claim C6: for any descriptor beginning with "pbkdf2", `simple_hash` is
independent of the key argument: the PBKDF2 branch uses only the text, the
salt and the descriptor's own parameters, and returns the PBKDF2 hex output
directly (no further hashing appears in the branch). -/
theorem simple_hash_pbkdf2_key_independent (prims : HashPrims)
    (text k1 k2 salt alg : Pstr)
    (h : "pbkdf2".data.isPrefixOf alg = true) :
    simple_hash prims text k1 salt alg = simple_hash prims text k2 salt alg := by
  have halg : ¬ alg = [] := by
    intro he
    subst he
    exact absurd h (by decide)
  simp only [simple_hash, if_neg halg, h, if_true]

/-- Witness for `simple_hash_pbkdf2_key_independent` at the descriptor
`pbkdf2(1000,20,sha512)` with keys "a" and "b". -/
theorem simple_hash_pbkdf2_key_independent_witness :
    ("pbkdf2".data.isPrefixOf "pbkdf2(1000,20,sha512)".data = true)
      ∧ simple_hash demoPrims "t".data "a".data "s".data "pbkdf2(1000,20,sha512)".data
          = simple_hash demoPrims "t".data "b".data "s".data "pbkdf2(1000,20,sha512)".data :=
  ⟨by decide,
    simple_hash_pbkdf2_key_independent demoPrims "t".data "a".data "b".data
      "s".data "pbkdf2(1000,20,sha512)".data (by decide)⟩

/-- Claim C7 counterexample: two fresh `LazyCrypt` values with the same
(`None`) key and the same plaintext but configurations differing in both
`digest_alg` (md5 vs sha512) and salt policy (True vs False) compare EQUAL,
refuting "configurations differing in algorithm or salt policy must compare
unequal". -/
theorem lazy_eq_ignores_config_cex :
    LazyCrypt.eqLazy ⟨⟨none, "md5".data, 0, [], .strue, 1024⟩, "pw".data⟩
        ⟨⟨none, "sha512".data, 0, [], .sfalse, 1024⟩, "pw".data⟩ = true := by decide

/-- Claim C7 (amended): equality between two not-yet-materialized `LazyCrypt`
values holds exactly when the configured keys are equal and the plaintexts
are equal; `digest_alg` and the salt policy are not consulted, and no
hashing is performed (`eqLazy` does not take the hash primitives at all). -/
theorem lazy_eq_iff_key_and_password (a b : LazyCrypt) :
    LazyCrypt.eqLazy a b = true
      ↔ (a.crypt.key = b.crypt.key ∧ a.password = b.password) := by
  simp [LazyCrypt.eqLazy]

lemma isEmpty_false_of_ne_nil {k : Pstr} (hk : k ≠ []) : k.isEmpty = false := by
  cases k with
  | nil => exact absurd rfl hk
  | cons a l => rfl

/-- Claim C3: a stored hash produced under algorithm A with a colon-free
nonempty key and auto-generated salt verifies true against a `LazyCrypt` for
the same plaintext whose configuration carries an arbitrary (in particular,
different) default digest algorithm but the same key: the algorithm and the
salt used for recomputation are parsed out of the stored string, not taken
from the verifying instance's default.  `hg`/`hh` record that the generated
salt and the abstract HMAC hex output contain no `'$'`. -/
theorem verify_uses_stored_algorithm (prims : HashPrims) (d1 : DigestName)
    (k P gen : Pstr) (cfg1 cfg2 : CRYPT)
    (h1k : cfg1.key = some k) (hk : k ≠ []) (hnc : ':' ∉ k)
    (h1a : cfg1.digest_alg = dName d1) (h1s : cfg1.salt = SaltPolicy.strue)
    (h2k : cfg2.key = some k)
    (hg : '$' ∉ gen)
    (hh : '$' ∉ prims.hmacHex d1 (k ++ gen) P) :
    LazyCrypt.str prims ⟨cfg1, P⟩ gen
        = .ok (dName d1 ++ '$' :: (gen ++ '$' :: prims.hmacHex d1 (k ++ gen) P))
      ∧ LazyCrypt.eqStored prims ⟨cfg2, P⟩
          (some (dName d1 ++ '$' :: (gen ++ '$' :: prims.hmacHex d1 (k ++ gen) P)))
        = .ok true := by
  have hke : k.isEmpty = false := isEmpty_false_of_ne_nil hk
  have hak : strAlgKey cfg1 = (dName d1, k) := by
    simp [strAlgKey, keyTruthy, h1k, hke, hnc, h1a]
  have hsalt : saltResolved cfg1 gen = gen := by
    simp [saltResolved, h1s]
  have hek : eqKey cfg2 = k := by
    simp [eqKey, keyTruthy, h2k, hke, hnc]
  constructor
  · simp only [LazyCrypt.str, hak, hsalt, simple_hash_hmac prims P k gen d1 hk,
      bind, Except.bind, pure, Except.pure]
  · rw [eqStored_build prims _ _ _ _ (dollar_not_mem_dName d1) hg hh]
    simp only [hek, simple_hash_hmac prims P k gen d1 hk, Except.map]
    simp

/-- Witness for `verify_uses_stored_algorithm`: encode "test" with md5, key
"mykey", salt "0123456789abcdef"; verify with a sha1-configured instance and
the same key. -/
theorem verify_uses_stored_algorithm_witness :
    (("mykey".data : Pstr) ≠ [] ∧ ':' ∉ ("mykey".data : Pstr)
        ∧ '$' ∉ ("0123456789abcdef".data : Pstr)
        ∧ '$' ∉ demoPrims.hmacHex DigestName.md5
            ("mykey".data ++ "0123456789abcdef".data) "test".data)
      ∧ LazyCrypt.eqStored demoPrims
          ⟨⟨some "mykey".data, "sha1".data, 0, [], .strue, 1024⟩, "test".data⟩
          (some (dName DigestName.md5 ++ '$' :: ("0123456789abcdef".data
            ++ '$' :: demoPrims.hmacHex DigestName.md5
                ("mykey".data ++ "0123456789abcdef".data) "test".data)))
        = .ok true :=
  ⟨by decide,
    (verify_uses_stored_algorithm demoPrims DigestName.md5 "mykey".data "test".data
      "0123456789abcdef".data
      ⟨some "mykey".data, "md5".data, 0, [], .strue, 1024⟩
      ⟨some "mykey".data, "sha1".data, 0, [], .strue, 1024⟩
      rfl (by decide) (by decide) rfl rfl rfl (by decide) (by decide)).2⟩

/-- Claim C5 counterexample: with `max_length` 4, the five-character
plaintext "abcde" is ACCEPTED and wrapped unaltered — no too-long error is
raised, refuting "for every plaintext longer than max_length validation
raises an error". -/
theorem crypt_toolong_accepted_cex :
    4 < ("abcde".data : Pstr).length
      ∧ CRYPT.validate ⟨none, "md5".data, 0, "Too short".data, .strue, 4⟩ "abcde".data
          = .ok (some ⟨⟨none, "md5".data, 0, "Too short".data, .strue, 4⟩, "abcde".data⟩) :=
  ⟨by decide, by rfl⟩

/-- Claim C5 (amended): non-sentinel plaintexts shorter than `min_length`
(and empty plaintexts) are rejected with the configured message before any
hashing (`validate` does not consult the hash primitives); plaintexts longer
than `max_length` are NOT rejected: the length check is applied to the value
truncated to `max_length`, and when that passes, validation succeeds,
wrapping the original, untruncated value. -/
theorem crypt_length_checks (c : CRYPT) (v : Pstr) (hv : v ≠ CRYPT.STARS) :
    (v.length < c.min_length → CRYPT.validate c v = .error c.error_message)
      ∧ (v ≠ [] → 0 < c.max_length → c.min_length ≤ c.max_length →
          c.min_length ≤ v.length →
          CRYPT.validate c v = .ok (some ⟨c, v⟩)) := by
  constructor
  · intro hshort
    unfold CRYPT.validate
    rw [if_neg hv]
    by_cases hnil : v = []
    · subst hnil
      simp
    · simp only [if_neg hnil]
      have hlen : (v.take c.max_length).length < c.min_length := by
        rw [List.length_take]
        omega
      rw [if_pos (Or.inr hlen)]
  · intro hne hmax hminmax hminlen
    have hvpos : 0 < v.length := List.length_pos.mpr hne
    unfold CRYPT.validate
    rw [if_neg hv]
    simp only [if_neg hne]
    have hcond : ¬ (v.take c.max_length = []
        ∨ (v.take c.max_length).length < c.min_length) := by
      push_neg
      constructor
      · apply List.ne_nil_of_length_pos
        rw [List.length_take]
        exact lt_inf_iff.mpr ⟨hmax, hvpos⟩
      · rw [List.length_take]
        exact le_inf_iff.mpr ⟨hminmax, hminlen⟩
    rw [if_neg hcond]

/-- Witness for `crypt_length_checks`: with `min_length` 4 the two-character
plaintext "ab" is rejected, and with the same configuration the plaintext
"abcd" is accepted unaltered. -/
theorem crypt_length_checks_witness :
    (("ab".data : Pstr) ≠ CRYPT.STARS ∧ ("ab".data : Pstr).length < 4)
      ∧ CRYPT.validate ⟨none, "md5".data, 4, "Too short".data, .strue, 1024⟩ "ab".data
          = .error "Too short".data :=
  ⟨by decide,
    (crypt_length_checks ⟨none, "md5".data, 4, "Too short".data, .strue, 1024⟩
      "ab".data (by decide)).1 (by decide)⟩

/-- Claim C8: the placeholder sentinel short-circuits both validators:
`CRYPT.validate` on the exact six-asterisk placeholder returns the null
result (Python `None`) for every configuration, without any hash computation
(`validate` does not consult the hash primitives); and `IS_STRONG.validate`
accepts every password made only of `'*'` repeated more than four times,
with no rule checks and no failures, for every configuration. -/
theorem sentinel_short_circuit :
    (∀ c : CRYPT, CRYPT.validate c CRYPT.STARS = .ok none)
      ∧ (∀ (calcE : Pstr → ℚ) (cfg : StrongCfg) (n : Nat), 4 < n →
          IS_STRONG.validate calcE cfg (List.replicate n '*')
            = .ok (List.replicate n '*')) := by
  constructor
  · intro c
    simp [CRYPT.validate]
  · intro calcE cfg n hn
    have hcount : (List.replicate n '*').count '*' = n := List.count_replicate_self _ _
    have hne : List.replicate n '*' ≠ [] := by
      intro he
      have hl : (List.replicate n '*').length = 0 := by
        rw [he]
        rfl
      rw [List.length_replicate] at hl
      omega
    simp [IS_STRONG.validate, hcount, List.length_replicate, hn, hne]

/-- Witness for `sentinel_short_circuit`: five asterisks under the default
`IS_STRONG` configuration. -/
theorem sentinel_short_circuit_witness :
    4 < 5
      ∧ IS_STRONG.validate (fun _ => 0)
          (IS_STRONG.init .pynone .pynone .pynone .pynone .pynone .pynone none
            defaultSpecials defaultInvalid none)
          (List.replicate 5 '*') = .ok (List.replicate 5 '*') :=
  ⟨by decide,
    sentinel_short_circuit.2 (fun _ => 0)
      (IS_STRONG.init .pynone .pynone .pynone .pynone .pynone .pynone none
        defaultSpecials defaultInvalid none) 5 (by decide)⟩

/-- Claim C9: `IS_STRONG` rule evaluation does not short-circuit: with a
configuration requiring only minimum length 2 and at least 1 uppercase
character (the remaining rule arguments passed as Python `False` to disable
them), the password "a" yields exactly the two failure entries, in source
order — not one. -/
theorem is_strong_reports_all_failures (calcE : Pstr → ℚ) :
    IS_STRONG.validate calcE
        (IS_STRONG.init (.val 2) .pynone (.val 1) .pyfalse .pyfalse .pyfalse none
          defaultSpecials defaultInvalid none) "a".data
      = .error (.rules [.minLength 2, .atLeastUpper 1]) := by rfl

lemma count_split (c : Char) (A B : Pstr) (hA : c ∉ A) :
    (A ++ c :: B).count c = B.count c + 1 := by
  simp [List.count_append, List.count_cons, List.count_eq_zero.mpr hA]

lemma strAlgKey_colon (cfg : CRYPT) (A B : Pstr)
    (hck : cfg.key = some (A ++ ':' :: B)) (hA : ':' ∉ A) :
    strAlgKey cfg = (A, B) := by
  have hne : (A ++ ':' :: B).isEmpty = false := by
    cases A <;> rfl
  have hmem : ':' ∈ A ++ ':' :: B := by simp
  simp only [strAlgKey, hck, keyTruthy, hne, Bool.not_false, if_true,
    Option.getD_some, if_pos hmem]
  exact pysplit1_spec _ _ _ hA

lemma strAlgKey_nocolon (cfg : CRYPT) (k : Pstr) (hck : cfg.key = some k)
    (hk : k ≠ []) (hnc : ':' ∉ k) : strAlgKey cfg = (cfg.digest_alg, k) := by
  simp only [strAlgKey, hck, keyTruthy, isEmpty_false_of_ne_nil hk,
    Bool.not_false, if_true, Option.getD_some, if_neg hnc]

lemma eqKey_colon (cfg : CRYPT) (A B : Pstr)
    (hck : cfg.key = some (A ++ ':' :: B)) (hA : ':' ∉ A) :
    eqKey cfg = (pysplit ':' B).getD 0 [] := by
  have hne : (A ++ ':' :: B).isEmpty = false := by
    cases A <;> rfl
  have hmem : ':' ∈ A ++ ':' :: B := by simp
  simp only [eqKey, hck, keyTruthy, hne, Bool.not_false, if_true,
    Option.getD_some, if_pos hmem, pysplit_append ':' A B hA]
  rfl

lemma eqKey_nocolon (cfg : CRYPT) (k : Pstr) (hck : cfg.key = some k)
    (hk : k ≠ []) (hnc : ':' ∉ k) : eqKey cfg = k := by
  simp only [eqKey, hck, keyTruthy, isEmpty_false_of_ne_nil hk,
    Bool.not_false, if_true, Option.getD_some, if_neg hnc]

/-- Claim C10: for a truthy configured key, materialization derives key
material as everything after the first colon (`split(":", 1)`) while
verification uses only the segment between the first and second colon
(`split(":")[1]`); the two derivations agree exactly when the key contains
at most one `':'`, and in that case encode-then-verify round-trips for the
same configuration and plaintext (given, for the abstract primitives, that
the derived descriptor, the salt and the hex output contain no `'$'`). -/
theorem key_split_agreement (k : Pstr) (hk : k ≠ []) (cfg : CRYPT)
    (hck : cfg.key = some k) :
    ((strAlgKey cfg).2 = eqKey cfg ↔ k.count ':' ≤ 1)
      ∧ (∀ (prims : HashPrims) (P gen hh : Pstr),
          k.count ':' ≤ 1 →
          '$' ∉ (strAlgKey cfg).1 → '$' ∉ saltResolved cfg gen → '$' ∉ hh →
          simple_hash prims P (strAlgKey cfg).2 (saltResolved cfg gen)
              (strAlgKey cfg).1 = .ok hh →
          LazyCrypt.str prims ⟨cfg, P⟩ gen
              = .ok ((strAlgKey cfg).1 ++ '$' :: (saltResolved cfg gen ++ '$' :: hh))
            ∧ LazyCrypt.eqStored prims ⟨cfg, P⟩
                (some ((strAlgKey cfg).1
                  ++ '$' :: (saltResolved cfg gen ++ '$' :: hh)))
              = .ok true) := by
  have hiff : (strAlgKey cfg).2 = eqKey cfg ↔ k.count ':' ≤ 1 := by
    by_cases hcol : ':' ∈ k
    · obtain ⟨A, B, hAB, hA⟩ := exists_first_split ':' k hcol
      subst hAB
      have hstr := strAlgKey_colon cfg A B hck hA
      have heq := eqKey_colon cfg A B hck hA
      have hcnt := count_split ':' A B hA
      by_cases hcB : ':' ∈ B
      · obtain ⟨A2, B2, hB, hA2⟩ := exists_first_split ':' B hcB
        have hBsplit : pysplit ':' B = A2 :: pysplit ':' B2 := by
          rw [hB]
          exact pysplit_append ':' A2 B2 hA2
        apply iff_of_false
        · rw [hstr, heq, hBsplit]
          intro hcontra
          have hBA2 : B = A2 := hcontra
          have h1 : B.length = A2.length := by rw [hBA2]
          have h2 : B.length = A2.length + 1 + B2.length := by
            rw [hB, List.length_append, List.length_cons]
            omega
          omega
        · have hposB : B.count ':' ≠ 0 := by
            rw [ne_eq, List.count_eq_zero]
            intro hno
            exact hno hcB
          omega
      · have hBone : pysplit ':' B = [B] := pysplit_not_mem ':' B hcB
        apply iff_of_true
        · rw [hstr, heq, hBone]
          rfl
        · have : B.count ':' = 0 := List.count_eq_zero.mpr hcB
          omega
    · have hcnt : k.count ':' = 0 := List.count_eq_zero.mpr hcol
      apply iff_of_true
      · rw [strAlgKey_nocolon cfg k hck hk hcol, eqKey_nocolon cfg k hck hk hcol]
      · omega
  refine ⟨hiff, ?_⟩
  intro prims P gen hh hcnt hd1 hd2 hdh hsh
  have heqk : eqKey cfg = (strAlgKey cfg).2 := (hiff.mpr hcnt).symm
  constructor
  · simp only [LazyCrypt.str, hsh, bind, Except.bind, pure, Except.pure]
  · rw [eqStored_build prims _ _ _ _ hd1 hd2 hdh]
    simp only [heqk, hsh, Except.map]
    simp

/-- Witness for `key_split_agreement`: the one-colon key "md5:uuid"; both
derivations give "uuid", and encode-then-verify round-trips with the
concrete primitives. -/
theorem key_split_agreement_witness :
    (("md5:uuid".data : Pstr) ≠ [] ∧ ("md5:uuid".data : Pstr).count ':' ≤ 1)
      ∧ LazyCrypt.eqStored demoPrims
          ⟨⟨some "md5:uuid".data, "sha256".data, 0, [], .strue, 1024⟩, "test".data⟩
          (some ((strAlgKey ⟨some "md5:uuid".data, "sha256".data, 0, [], .strue, 1024⟩).1
            ++ '$' :: (saltResolved
                ⟨some "md5:uuid".data, "sha256".data, 0, [], .strue, 1024⟩ "ss".data
              ++ '$' :: demoPrims.hmacHex DigestName.md5
                  ("uuid".data ++ "ss".data) "test".data)))
        = .ok true :=
  ⟨by decide,
    ((key_split_agreement "md5:uuid".data (by decide)
      ⟨some "md5:uuid".data, "sha256".data, 0, [], .strue, 1024⟩ rfl).2
      demoPrims "test".data "ss".data
      (demoPrims.hmacHex DigestName.md5 ("uuid".data ++ "ss".data) "test".data)
      (by decide) (by decide) (by decide) (by decide) (by decide)).2⟩

/-- Witness for `lazy_eq_iff_key_and_password` at two concrete instances
sharing key and plaintext but differing in digest_alg and salt policy. -/
theorem lazy_eq_iff_key_and_password_witness :
    LazyCrypt.eqLazy ⟨⟨some "k".data, "md5".data, 0, [], .strue, 16⟩, "pw".data⟩
        ⟨⟨some "k".data, "sha1".data, 0, [], .sfalse, 16⟩, "pw".data⟩ = true
      ↔ ((some "k".data : Option Pstr) = some "k".data
          ∧ ("pw".data : Pstr) = "pw".data) :=
  lazy_eq_iff_key_and_password
    ⟨⟨some "k".data, "md5".data, 0, [], .strue, 16⟩, "pw".data⟩
    ⟨⟨some "k".data, "sha1".data, 0, [], .sfalse, 16⟩, "pw".data⟩

/-- Witness for `is_strong_reports_all_failures` with a concrete entropy
function (which the configuration never calls). -/
theorem is_strong_reports_all_failures_witness :
    IS_STRONG.validate (fun _ => (0 : ℚ))
        (IS_STRONG.init (.val 2) .pynone (.val 1) .pyfalse .pyfalse .pyfalse none
          defaultSpecials defaultInvalid none) "a".data
      = .error (.rules [.minLength 2, .atLeastUpper 1]) :=
  is_strong_reports_all_failures (fun _ => (0 : ℚ))
